import Mathlib

/-!
Verification of the token-generation server (`app.py`): a shallow embedding of
the sampling pipeline (temperature scaling, nucleus / top-p filtering,
weighted sampling, top-k candidate extraction) and of the generation loop
(seeding, sliding-window truncation, auto-reset, record emission, sink
forwarding, pacing), together with theorems settling the specification
claims.  Floating-point values are modelled as real numbers; setting a logit
to negative infinity followed by a standard softmax is modelled as the masked
softmax in which an excluded position contributes `exp (-∞) = 0` to the
numerator and the denominator.
-/

namespace App

/-- Temperature scaling: `next_token_logits = next_token_logits / current_temp`. -/
noncomputable def scaleLogits (logits : List ℝ) (temp : ℝ) : List ℝ :=
  logits.map (fun x => x / temp)

/-- Softmax over a list of reals: `torch.softmax(v, dim=-1)`. -/
noncomputable def softmax (l : List ℝ) : List ℝ :=
  l.map (fun x => Real.exp x / (l.map Real.exp).sum)

/-- Descending argsort, the `sorted_indices` component of
`torch.sort(next_token_logits, descending=True)`: the positions of `l`,
reordered so that the corresponding values are descending (stable on ties). -/
noncomputable def argsortDesc (l : List ℝ) : List ℕ :=
  (List.range l.length).mergeSort (fun i j => decide (l.getD j 0 ≤ l.getD i 0))

/-- The `sorted_logits` component of `torch.sort(next_token_logits, descending=True)`:
the values of `l` in descending order. -/
noncomputable def sortDesc (l : List ℝ) : List ℝ :=
  (argsortDesc l).map (fun i => l.getD i 0)

/-- Reading `.cumsum(dim=-1)` at position `i`: the sum of the entries up to
and including index `i`. -/
noncomputable def cumAt (l : List ℝ) (i : ℕ) : ℝ :=
  (l.take (i + 1)).sum

/-- Position `i` of the sorted order is marked for removal by the nucleus
filter.  The raw mask is `cumulative_probs > 0.92`; it is then shifted right
by one position (`sorted_indices_to_remove[..., 1:] = sorted_indices_to_remove[..., :-1]`)
and position 0 is cleared (`sorted_indices_to_remove[..., 0] = 0`), so sorted
position `i` is removed iff `i ≠ 0` and the raw mask held at `i - 1`.
Here `l` is the temperature-scaled logits vector. -/
def removedSorted (l : List ℝ) (topP : ℝ) (i : ℕ) : Prop :=
  i ≠ 0 ∧ topP < cumAt (softmax (sortDesc l)) (i - 1)

/-- Original-order removal mask, the
`sorted_indices_to_remove.scatter(1, sorted_indices, sorted_indices_to_remove)`
line: original position `j` is removed iff some sorted position `i` with
`sorted_indices[i] = j` is marked for removal. -/
def removedOrig (l : List ℝ) (topP : ℝ) (j : ℕ) : Prop :=
  ∃ i, i < (argsortDesc l).length ∧ (argsortDesc l).getD i 0 = j ∧ removedSorted l topP i

open Classical in
/-- Numerators of the post-filter softmax: after
`next_token_logits[indices_to_remove] = -inf`, position `j` contributes
`exp (-∞) = 0` when removed and `exp l[j]` otherwise. -/
noncomputable def keptExp (l : List ℝ) (topP : ℝ) : List ℝ :=
  (List.range l.length).map (fun j => if removedOrig l topP j then 0 else Real.exp (l.getD j 0))

/-- The distribution the sampler draws from:
`probs = torch.softmax(next_token_logits, dim=-1)` applied to the filtered
logits, i.e. the masked softmax of the temperature-scaled logits. -/
noncomputable def finalProbs (logits : List ℝ) (temp topP : ℝ) : List ℝ :=
  (keptExp (scaleLogits logits temp) topP).map
    (fun e => e / (keptExp (scaleLogits logits temp) topP).sum)

/-- Index `i` is a possible outcome of
`torch.multinomial(probs, num_samples=1)`: exactly the indices of positive
probability can be drawn. -/
def canSample (probs : List ℝ) (i : ℕ) : Prop :=
  0 < probs.getD i 0

/-- The fixed nucleus mass used by the loop (`cumulative_probs > 0.92`). -/
noncomputable def NUCLEUS_P : ℝ := 0.92

/-! ### Basic facts about the nucleus mask -/

theorem argsortDesc_perm (l : List ℝ) :
    List.Perm (argsortDesc l) (List.range l.length) :=
  List.mergeSort_perm _ _

theorem argsortDesc_nodup (l : List ℝ) : (argsortDesc l).Nodup :=
  ((argsortDesc_perm l).nodup_iff).mpr (List.nodup_range _)

theorem argsortDesc_length (l : List ℝ) : (argsortDesc l).length = l.length :=
  (argsortDesc_perm l).length_eq.trans (List.length_range _)

theorem argsortDesc_mem_lt (l : List ℝ) {j : ℕ} (hj : j ∈ argsortDesc l) :
    j < l.length := by
  have := (argsortDesc_perm l).mem_iff.mp hj
  simpa using this

/-- The head of the sorted order (the position of the highest-probability
token) is never removed: the mask at sorted position 0 is cleared. -/
theorem top_not_removed (l : List ℝ) (topP : ℝ) (hl : l ≠ []) :
    ¬ removedOrig l topP ((argsortDesc l).getD 0 0) := by
  rintro ⟨i, hi, heq, hrem, -⟩
  apply hrem
  have hlen : 0 < (argsortDesc l).length := by
    rw [argsortDesc_length]
    exact List.length_pos.mpr hl
  have h0 : (argsortDesc l).getD 0 0 = (argsortDesc l).get ⟨0, hlen⟩ := by
    simp [List.getD_eq_getElem?_getD, List.getElem?_eq_getElem hlen]
  have hii : (argsortDesc l).getD i 0 = (argsortDesc l).get ⟨i, hi⟩ := by
    simp [List.getD_eq_getElem?_getD, List.getElem?_eq_getElem hi]
  have hg : (argsortDesc l).get ⟨i, hi⟩ = (argsortDesc l).get ⟨0, hlen⟩ := by
    rw [← hii, ← h0]
    exact heq
  have := (argsortDesc_nodup l).get_inj_iff.mp hg
  simpa using congrArg Fin.val this

theorem keptExp_nonneg (l : List ℝ) (topP : ℝ) :
    ∀ x ∈ keptExp l topP, 0 ≤ x := by
  intro x hx
  rw [keptExp] at hx
  obtain ⟨j, hj, rfl⟩ := List.mem_map.mp hx
  by_cases h : removedOrig l topP j
  · simp [h]
  · simp [h]
    positivity

theorem keptExp_sum_pos (l : List ℝ) (topP : ℝ) (hl : l ≠ []) :
    0 < (keptExp l topP).sum := by
  set j0 := (argsortDesc l).getD 0 0 with hj0
  have hlen : 0 < (argsortDesc l).length := by
    rw [argsortDesc_length]
    exact List.length_pos.mpr hl
  have hmem : j0 ∈ argsortDesc l := by
    rw [hj0]
    have : (argsortDesc l).getD 0 0 = (argsortDesc l).get ⟨0, hlen⟩ := by
      simp [List.getD_eq_getElem?_getD, List.getElem?_eq_getElem hlen]
    rw [this]
    exact List.get_mem _ _ _
  have hjlt : j0 < l.length := argsortDesc_mem_lt l hmem
  have hkept : Real.exp (l.getD j0 0) ∈ keptExp l topP := by
    rw [keptExp]
    apply List.mem_map.mpr
    refine ⟨j0, List.mem_range.mpr hjlt, ?_⟩
    simp [top_not_removed l topP hl]
  calc (0 : ℝ) < Real.exp (l.getD j0 0) := Real.exp_pos _
    _ ≤ (keptExp l topP).sum := List.single_le_sum (keptExp_nonneg l topP) _ hkept

theorem sum_map_div (l : List ℝ) (c : ℝ) :
    (l.map (fun x => x / c)).sum = l.sum / c := by
  induction l with
  | nil => simp
  | cons a t ih => simp [ih, add_div]

theorem scaleLogits_ne_nil {logits : List ℝ} (temp : ℝ) (hl : logits ≠ []) :
    scaleLogits logits temp ≠ [] := by
  simpa [scaleLogits] using hl

/-- C2: for every logits vector, every temperature > 0 and every nucleusMass
in (0,1), the nucleus filtering step never excludes the single
highest-probability token: the token at position 0 of the sorted order (the
head of `sorted_indices`) always stays eligible. -/
theorem C2_top_token_never_excluded (logits : List ℝ) (temp topP : ℝ)
    (hl : logits ≠ []) (ht : 0 < temp) (hp0 : 0 < topP) (hp1 : topP < 1) :
    ¬ removedOrig (scaleLogits logits temp) topP
        ((argsortDesc (scaleLogits logits temp)).getD 0 0) :=
  top_not_removed _ topP (scaleLogits_ne_nil temp hl)

/-- Witness for C2 at the concrete input logits = [0], temperature 1,
nucleusMass 1/2. -/
theorem C2_top_token_never_excluded_witness :
    ¬ removedOrig (scaleLogits [(0 : ℝ)] 1) (1 / 2)
        ((argsortDesc (scaleLogits [(0 : ℝ)] 1)).getD 0 0) :=
  C2_top_token_never_excluded [(0 : ℝ)] 1 (1 / 2) (by simp) (by norm_num)
    (by norm_num) (by norm_num)

/-- C9: for every temperature > 0 and every nonempty logits vector, the
post-filter probability distribution the sampler draws from sums to 1 and
contains no negative entries; every entry is a well-defined real number
(the denominator is positive because the top token survives the filter),
which is the real-valued rendering of freedom from NaN. -/
theorem C9_post_filter_distribution (logits : List ℝ) (temp : ℝ)
    (ht : 0 < temp) (hl : logits ≠ []) :
    (finalProbs logits temp NUCLEUS_P).sum = 1 ∧
      ∀ p ∈ finalProbs logits temp NUCLEUS_P, 0 ≤ p := by
  have hZ := keptExp_sum_pos (scaleLogits logits temp) NUCLEUS_P
    (scaleLogits_ne_nil temp hl)
  constructor
  · rw [finalProbs, sum_map_div, div_self (ne_of_gt hZ)]
  · intro p hp
    rw [finalProbs] at hp
    obtain ⟨e, he, rfl⟩ := List.mem_map.mp hp
    exact div_nonneg (keptExp_nonneg _ _ e he) (le_of_lt hZ)

/-- Witness for C9 at the concrete input logits = [0], temperature 1. -/
theorem C9_post_filter_distribution_witness :
    (finalProbs [(0 : ℝ)] 1 NUCLEUS_P).sum = 1 ∧
      ∀ p ∈ finalProbs [(0 : ℝ)] 1 NUCLEUS_P, 0 ≤ p :=
  C9_post_filter_distribution [(0 : ℝ)] 1 (by norm_num) (by simp)

/-! ### The concrete scenario of C1: logits [2.0, 1.0, 0.1], temperature 1,
nucleus mass 0.92 -/

theorem scale_L3 : scaleLogits [(2 : ℝ), 1, 0.1] 1 = [(2 : ℝ), 1, 0.1] := by
  norm_num [scaleLogits]

theorem argsort_L3 : argsortDesc [(2 : ℝ), 1, 0.1] = [0, 1, 2] := by
  have h : List.range (List.length [(2 : ℝ), 1, 0.1]) = [0, 1, 2] := rfl
  rw [argsortDesc, h]
  apply List.mergeSort_of_sorted
  norm_num [List.pairwise_cons]

theorem sortDesc_L3 : sortDesc [(2 : ℝ), 1, 0.1] = [(2 : ℝ), 1, 0.1] := by
  rw [sortDesc, argsort_L3]
  norm_num

theorem L3_sum_pos : (0 : ℝ) < Real.exp 2 + Real.exp 1 + Real.exp 0.1 := by
  positivity

theorem L3_mass_le :
    Real.exp 2 + Real.exp 1 ≤ 0.92 * (Real.exp 2 + Real.exp 1 + Real.exp 0.1) := by
  have h1 : Real.exp 1 < 2.7182818286 := Real.exp_one_lt_d9
  have h2 : Real.exp 2 = Real.exp 1 * Real.exp 1 := by
    rw [← Real.exp_add]
    norm_num
  have h3 : (1.1 : ℝ) ≤ Real.exp 0.1 := by
    have := Real.add_one_le_exp (0.1 : ℝ)
    linarith
  have h4 : (0 : ℝ) < Real.exp 1 := Real.exp_pos 1
  have h5 : (0 : ℝ) < (2.7182818286 - Real.exp 1) * Real.exp 1 :=
    mul_pos (by linarith) h4
  rw [h2]
  nlinarith [h1, h3, h4, h5]

theorem L3_cum0_le : cumAt (softmax (sortDesc [(2 : ℝ), 1, 0.1])) 0 ≤ 0.92 := by
  rw [sortDesc_L3]
  simp only [cumAt, softmax]
  norm_num
  rw [div_le_iff (by positivity)]
  nlinarith [L3_mass_le, Real.exp_pos 1, Real.exp_pos 2, Real.exp_pos (0.1 : ℝ)]

theorem L3_cum1_le : cumAt (softmax (sortDesc [(2 : ℝ), 1, 0.1])) 1 ≤ 0.92 := by
  rw [sortDesc_L3]
  simp only [cumAt, softmax]
  norm_num
  rw [div_add_div_same, div_le_iff (by positivity)]
  nlinarith [L3_mass_le, Real.exp_pos 1, Real.exp_pos 2, Real.exp_pos (0.1 : ℝ)]

theorem L3_not_removedOrig (j : ℕ) :
    ¬ removedOrig [(2 : ℝ), 1, 0.1] 0.92 j := by
  rintro ⟨i, hi, hgd, hi0, hcum⟩
  rw [argsort_L3] at hi hgd
  norm_num at hi
  interval_cases i
  · exact hi0 rfl
  · exact absurd hcum (not_lt.mpr L3_cum0_le)
  · exact absurd hcum (not_lt.mpr L3_cum1_le)

theorem keptExp_L3 :
    keptExp [(2 : ℝ), 1, 0.1] 0.92 = [Real.exp 2, Real.exp 1, Real.exp 0.1] := by
  rw [keptExp]
  have h : List.range (List.length [(2 : ℝ), 1, 0.1]) = [0, 1, 2] := rfl
  rw [h]
  simp [L3_not_removedOrig]

/-- C1 counterexample: in the 3-token scenario with logits [2.0, 1.0, 0.1],
temperature 1 and nucleus mass 0.92, token C (index 2) is NOT excluded by the
nucleus filter (the cumulative probability through A and through B are both
below 0.92, and the one-position right shift of the mask spares the
threshold-crossing token), and weighted sampling CAN return token C — its
post-filter probability is positive.  This refutes the claim as stated. -/
theorem C1_counterexample :
    ¬ removedOrig (scaleLogits [(2 : ℝ), 1, 0.1] 1) NUCLEUS_P 2 ∧
      canSample (finalProbs [(2 : ℝ), 1, 0.1] 1 NUCLEUS_P) 2 := by
  have hP : NUCLEUS_P = (0.92 : ℝ) := rfl
  constructor
  · rw [scale_L3, hP]
    exact L3_not_removedOrig 2
  · rw [canSample, finalProbs, hP, scale_L3, keptExp_L3]
    have hpos : (0 : ℝ) < Real.exp 2 + Real.exp 1 + Real.exp 0.1 := L3_sum_pos
    norm_num
    positivity

/-- C1 amended: for the sampler with the 3-token vocabulary with logits
[2.0, 1.0, 0.1], temperature 1.0 and nucleusMass 0.92, ALL THREE tokens A, B
and C remain eligible (the filter excludes nothing, because the cumulative
probabilities through A and through B are both < 0.92 and the one-step-late
cutoff keeps the token that crosses the threshold), and weighted sampling
can return token C. -/
theorem C1_amended :
    (¬ removedOrig (scaleLogits [(2 : ℝ), 1, 0.1] 1) NUCLEUS_P 0) ∧
      (¬ removedOrig (scaleLogits [(2 : ℝ), 1, 0.1] 1) NUCLEUS_P 1) ∧
      (¬ removedOrig (scaleLogits [(2 : ℝ), 1, 0.1] 1) NUCLEUS_P 2) ∧
      canSample (finalProbs [(2 : ℝ), 1, 0.1] 1 NUCLEUS_P) 2 := by
  have hP : NUCLEUS_P = (0.92 : ℝ) := rfl
  refine ⟨?_, ?_, ?_, ?_⟩
  · rw [scale_L3, hP]
    exact L3_not_removedOrig 0
  · rw [scale_L3, hP]
    exact L3_not_removedOrig 1
  · rw [scale_L3, hP]
    exact L3_not_removedOrig 2
  · rw [canSample, finalProbs, hP, scale_L3, keptExp_L3]
    have hpos : (0 : ℝ) < Real.exp 2 + Real.exp 1 + Real.exp 0.1 := L3_sum_pos
    norm_num
    positivity

/-! ### The generation loop -/

/-- The seed alphabet `SEEDS = list("ABCDEFGHIJKLMNOPQRSTUVWXYZ0123456789")`. -/
def SEEDS : List String :=
  ["A", "B", "C", "D", "E", "F", "G", "H", "I", "J", "K", "L", "M", "N", "O",
   "P", "Q", "R", "S", "T", "U", "V", "W", "X", "Y", "Z",
   "0", "1", "2", "3", "4", "5", "6", "7", "8", "9"]

/-- The auto-reset ceiling `MAX_TOKENS_BEFORE_RESET = 4000`. -/
def MAX_TOKENS_BEFORE_RESET : ℕ := 4000

/-- Initial value of the process-wide pacing state: `current_delay = 0.5`. -/
noncomputable def initialCurrentDelay : ℝ := 0.5

/-- The request body of `POST /generate` (`class GenerateRequest`), with the
default field values of the source.  Pydantic checks only the field types;
every quadruple of values is accepted and there is no value validation. -/
structure GenerateRequest where
  temp : ℝ := 1.0
  context : ℤ := 64
  delay : ℝ := 0.05
  reset : Bool := true

/-- The model collaborator (tokenizer + forward pass returning next-token
logits and the last hidden state); it is external to the program and enters
the embedding as total functions. -/
structure Model where
  tokenize : String → List ℕ
  forward : List ℕ → List ℝ × List ℝ
  decode : ℕ → String

/-- One entry of the top-5 candidate report. -/
structure Candidate where
  token : String
  prob : ℝ

/-- One newline-delimited JSON record of the generation stream.  The two
optional fields are `some` exactly when the corresponding keys
(`candidates`, `final_prob`) appear in the emitted JSON object; every record
carries the `text` and `count` keys. -/
structure Record where
  text : String
  count : ℕ
  candidates : Option (List Candidate) := none
  final_prob : Option ℝ := none

/-- Python `round(x, n)` modelled as rounding `x` to the nearest multiple of
`10 ^ (-n)`; Python rounds exact halves to even, which differs from this
half-up rendering only when `x * 10 ^ n` is exactly a half-integer.  Only
monotonicity of the rounding is used in the theorems below. -/
noncomputable def pyRound (n : ℕ) (x : ℝ) : ℝ :=
  ⌊x * 10 ^ n + 1 / 2⌋ / 10 ^ n

/-- The truncated context actually passed to the model (lines 129–134):
`max_ctx = max(1, req.context)`, and when the context exceeds it only the
last `max_ctx` tokens are kept (`input_ids[:, -max_ctx:]`). -/
def truncateCtx (ids : List ℕ) (context : ℤ) : List ℕ :=
  let maxCtx := (max 1 context).toNat
  if maxCtx < ids.length then ids.drop (ids.length - maxCtx) else ids

/-- The candidate-extraction step (`torch.topk(probs, k=5, dim=-1)` and the
loop building `candidates`): the `k` highest-probability positions in
descending order, decoded, with probabilities rounded to 4 digits.
`torch.topk` raises when `k` exceeds the vocabulary size; that exception is
rendered as `none`. -/
noncomputable def topkCandidates (M : Model) (probs : List ℝ) (k : ℕ) :
    Option (List Candidate) :=
  if k ≤ probs.length then
    some (((argsortDesc probs).take k).map
      (fun i => ⟨M.decode i, pyRound 4 (probs.getD i 0)⟩))
  else none

open Classical in
/-- Lines 146–167 of the loop body: temperature scaling, nucleus filtering,
the `torch.multinomial` draw, its probability, and the top-5 candidates.
The oracle `sampleIdx` names the index produced by the random draw; a draw
is possible exactly at an index of positive post-filter probability, and an
impossible index (the float pipeline raising inside `multinomial`) or a
failing `topk` makes the iteration raise, rendered as `none`. -/
noncomputable def sampleStep (M : Model) (logits : List ℝ) (temp topP : ℝ)
    (sampleIdx : ℕ) : Option (ℕ × ℝ × List Candidate) :=
  if 0 < (finalProbs logits temp topP).getD sampleIdx 0 then
    match topkCandidates M (finalProbs logits temp topP) 5 with
    | some cands =>
        some (sampleIdx, (finalProbs logits temp topP).getD sampleIdx 0, cands)
    | none => none
  else none

/-- The loop state: the context token ids and the step counter
(`input_ids`, `current_count`). -/
structure GenState where
  inputIds : List ℕ
  count : ℕ

/-- Per-iteration oracle: the outcomes of the per-iteration random draws
(`random.choice(SEEDS)` and `torch.multinomial`) and of its fallible
external calls; `false` means the call raises. -/
structure StepOracle where
  seedIdx : ℕ
  sampleIdx : ℕ
  modelOk : Bool
  resetSinkOk : Bool
  pointSinkOk : Bool

/-- What one pass through the `while True:` body produced.  `next = none`
means the `except Exception` clause caught an exception and ran `break`
(the exception never propagates to the transport); `emitted` lists the
records the generator yielded during the pass (an exception cannot erase an
already-yielded record); `modelInput` is the token sequence the model was
invoked on, when inference was reached; `slept` is the argument of the
`time.sleep` call, when it was reached. -/
structure StepOut where
  emitted : List Record
  next : Option GenState
  modelInput : Option (List ℕ)
  slept : Option ℝ

/-- Text of the auto-reset marker record,
`f"\n\n[AUTO-RESET: MEMORY FLUSH]\n" + seed_text`. -/
def resetText (seed : String) : String :=
  "\n\n[AUTO-RESET: MEMORY FLUSH]\n" ++ seed

open Classical in
/-- One pass through the `while True:` body of `iter_generation`
(lines 114–198), for request `req`, when the process-wide pacing state holds
`curDelay` at the moment the pass reads it.  The pass order follows the
source: ceiling check (reseed, OSC `/reset`, yield reset record, continue);
otherwise truncate, model forward, sample, decode, yield the token record,
OSC `/latent/point`, append the token, sleep. -/
noncomputable def step (M : Model) (req : GenerateRequest) (curDelay : ℝ)
    (o : StepOracle) (st : GenState) : StepOut :=
  if MAX_TOKENS_BEFORE_RESET ≤ st.count then
    let seed := SEEDS.getD (o.seedIdx % SEEDS.length) "A"
    if o.resetSinkOk then
      { emitted := [{ text := resetText seed, count := 0 }],
        next := some ⟨M.tokenize seed, 0⟩,
        modelInput := none, slept := none }
    else
      { emitted := [], next := none, modelInput := none, slept := none }
  else
    let ctx := truncateCtx st.inputIds req.context
    if o.modelOk = false then
      { emitted := [], next := none, modelInput := some ctx, slept := none }
    else
      match sampleStep M (M.forward ctx).1 req.temp NUCLEUS_P o.sampleIdx with
      | none =>
          { emitted := [], next := none, modelInput := some ctx, slept := none }
      | some (tok, fp, cands) =>
          let r : Record :=
            { text := M.decode tok, count := st.count + 1,
              candidates := some cands, final_prob := some (pyRound 6 fp) }
          if o.pointSinkOk then
            { emitted := [r], next := some ⟨ctx ++ [tok], st.count + 1⟩,
              modelInput := some ctx,
              slept := some (max 0.01 (min 2.0 curDelay)) }
          else
            { emitted := [r], next := none, modelInput := some ctx,
              slept := none }

/-- The part of `iter_generation` before the `while True:` loop (lines
101–112): the optional pre-loop `/reset` notification (which sits OUTSIDE
the try/except, so a failure there propagates and nothing is ever yielded),
the initial seed draw, and the initial seed record.  `none` means the
generator raised before yielding anything. -/
def initGen (M : Model) (req : GenerateRequest) (startSinkOk : Bool)
    (seedIdx : ℕ) : Option (Record × GenState) :=
  if req.reset = true ∧ startSinkOk = false then none
  else
    let seed := SEEDS.getD (seedIdx % SEEDS.length) "A"
    some ({ text := seed, count := 0 }, ⟨M.tokenize seed, 0⟩)

/-- The loop state before iteration `t` of the run (absent once the loop has
broken); `delays t` is the value the process-wide pacing state holds when
iteration `t` reads it, `os t` the oracle of iteration `t`. -/
noncomputable def stateAt (M : Model) (req : GenerateRequest)
    (delays : ℕ → ℝ) (os : ℕ → StepOracle) (st0 : GenState) :
    ℕ → Option GenState
  | 0 => some st0
  | t + 1 =>
    match stateAt M req delays os st0 t with
    | none => none
    | some st => (step M req (delays t) (os t) st).next

/-- The records yielded during iteration `t` of the run. -/
noncomputable def recordsAt (M : Model) (req : GenerateRequest)
    (delays : ℕ → ℝ) (os : ℕ → StepOracle) (st0 : GenState) (t : ℕ) :
    List Record :=
  match stateAt M req delays os st0 t with
  | none => []
  | some st => (step M req (delays t) (os t) st).emitted

/-- The sleep performed during iteration `t` of the run. -/
noncomputable def sleptAt (M : Model) (req : GenerateRequest)
    (delays : ℕ → ℝ) (os : ℕ → StepOracle) (st0 : GenState) (t : ℕ) :
    Option ℝ :=
  match stateAt M req delays os st0 t with
  | none => none
  | some st => (step M req (delays t) (os t) st).slept

/-! ### Analysis of one loop pass -/

theorem seeds_getD_mem (i : ℕ) : SEEDS.getD (i % SEEDS.length) "A" ∈ SEEDS := by
  have hlen : i % SEEDS.length < SEEDS.length :=
    Nat.mod_lt _ (by norm_num [SEEDS])
  rw [List.getD_eq_getElem?_getD, List.getElem?_eq_getElem hlen]
  exact List.getElem_mem _

theorem step_reset_ok (M : Model) (req : GenerateRequest) (curDelay : ℝ)
    (o : StepOracle) (st : GenState)
    (hc : MAX_TOKENS_BEFORE_RESET ≤ st.count) (hr : o.resetSinkOk = true) :
    step M req curDelay o st =
      { emitted := [⟨resetText (SEEDS.getD (o.seedIdx % SEEDS.length) "A"),
          0, none, none⟩],
        next := some ⟨M.tokenize (SEEDS.getD (o.seedIdx % SEEDS.length) "A"), 0⟩,
        modelInput := none, slept := none } := by
  simp [step, hc, hr]

theorem step_reset_fail (M : Model) (req : GenerateRequest) (curDelay : ℝ)
    (o : StepOracle) (st : GenState)
    (hc : MAX_TOKENS_BEFORE_RESET ≤ st.count) (hr : o.resetSinkOk = false) :
    step M req curDelay o st =
      { emitted := [], next := none, modelInput := none, slept := none } := by
  simp [step, hc, hr]

theorem step_model_fail (M : Model) (req : GenerateRequest) (curDelay : ℝ)
    (o : StepOracle) (st : GenState)
    (hc : ¬ MAX_TOKENS_BEFORE_RESET ≤ st.count) (hm : o.modelOk = false) :
    step M req curDelay o st =
      { emitted := [], next := none,
        modelInput := some (truncateCtx st.inputIds req.context),
        slept := none } := by
  simp [step, hc, hm]

theorem step_sample_fail (M : Model) (req : GenerateRequest) (curDelay : ℝ)
    (o : StepOracle) (st : GenState)
    (hc : ¬ MAX_TOKENS_BEFORE_RESET ≤ st.count) (hm : o.modelOk = true)
    (hss : sampleStep M (M.forward (truncateCtx st.inputIds req.context)).1
        req.temp NUCLEUS_P o.sampleIdx = none) :
    step M req curDelay o st =
      { emitted := [], next := none,
        modelInput := some (truncateCtx st.inputIds req.context),
        slept := none } := by
  simp [step, hc, hm, hss]

theorem step_sample_ok (M : Model) (req : GenerateRequest) (curDelay : ℝ)
    (o : StepOracle) (st : GenState) (tok : ℕ) (fp : ℝ)
    (cands : List Candidate)
    (hc : ¬ MAX_TOKENS_BEFORE_RESET ≤ st.count) (hm : o.modelOk = true)
    (hss : sampleStep M (M.forward (truncateCtx st.inputIds req.context)).1
        req.temp NUCLEUS_P o.sampleIdx = some (tok, fp, cands))
    (hp : o.pointSinkOk = true) :
    step M req curDelay o st =
      { emitted := [⟨M.decode tok, st.count + 1, some cands,
          some (pyRound 6 fp)⟩],
        next := some ⟨truncateCtx st.inputIds req.context ++ [tok],
          st.count + 1⟩,
        modelInput := some (truncateCtx st.inputIds req.context),
        slept := some (max 0.01 (min 2.0 curDelay)) } := by
  simp [step, hc, hm, hss, hp]

theorem step_sample_badSink (M : Model) (req : GenerateRequest)
    (curDelay : ℝ) (o : StepOracle) (st : GenState) (tok : ℕ) (fp : ℝ)
    (cands : List Candidate)
    (hc : ¬ MAX_TOKENS_BEFORE_RESET ≤ st.count) (hm : o.modelOk = true)
    (hss : sampleStep M (M.forward (truncateCtx st.inputIds req.context)).1
        req.temp NUCLEUS_P o.sampleIdx = some (tok, fp, cands))
    (hp : o.pointSinkOk = false) :
    step M req curDelay o st =
      { emitted := [⟨M.decode tok, st.count + 1, some cands,
          some (pyRound 6 fp)⟩],
        next := none,
        modelInput := some (truncateCtx st.inputIds req.context),
        slept := none } := by
  simp [step, hc, hm, hss, hp]

/-- A successful pass is either an auto-reset pass (at the ceiling: one
reset-marker record with count 0, a reseeded context, no model call) or a
sampling pass (below it: one token record with count `st.count + 1`). -/
theorem step_next_cases (M : Model) (req : GenerateRequest) (curDelay : ℝ)
    (o : StepOracle) (st st1 : GenState)
    (h : (step M req curDelay o st).next = some st1) :
    (MAX_TOKENS_BEFORE_RESET ≤ st.count ∧ st1.count = 0 ∧
      ∃ s, s ∈ SEEDS ∧ st1.inputIds = M.tokenize s ∧
        (step M req curDelay o st).emitted = [⟨resetText s, 0, none, none⟩] ∧
        (step M req curDelay o st).modelInput = none) ∨
    (st.count < MAX_TOKENS_BEFORE_RESET ∧ st1.count = st.count + 1 ∧
      ∃ tok fp cands,
        sampleStep M (M.forward (truncateCtx st.inputIds req.context)).1
            req.temp NUCLEUS_P o.sampleIdx = some (tok, fp, cands) ∧
        (step M req curDelay o st).emitted
          = [⟨M.decode tok, st.count + 1, some cands, some (pyRound 6 fp)⟩] ∧
        st1.inputIds = truncateCtx st.inputIds req.context ++ [tok]) := by
  by_cases hc : MAX_TOKENS_BEFORE_RESET ≤ st.count
  · left
    cases hr : o.resetSinkOk with
    | false => rw [step_reset_fail M req curDelay o st hc hr] at h; simp at h
    | true =>
      rw [step_reset_ok M req curDelay o st hc hr] at h
      simp only [Option.some.injEq] at h
      subst h
      rw [step_reset_ok M req curDelay o st hc hr]
      exact ⟨hc, rfl, SEEDS.getD (o.seedIdx % SEEDS.length) "A",
        seeds_getD_mem _, rfl, rfl, rfl⟩
  · right
    cases hm : o.modelOk with
    | false => rw [step_model_fail M req curDelay o st hc hm] at h; simp at h
    | true =>
      rcases hss : sampleStep M (M.forward (truncateCtx st.inputIds req.context)).1
          req.temp NUCLEUS_P o.sampleIdx with - | ⟨tok, fp, cands⟩
      · rw [step_sample_fail M req curDelay o st hc hm hss] at h
        simp at h
      · cases hp : o.pointSinkOk with
        | false =>
          rw [step_sample_badSink M req curDelay o st tok fp cands hc hm hss hp] at h
          simp at h
        | true =>
          rw [step_sample_ok M req curDelay o st tok fp cands hc hm hss hp] at h
          simp only [Option.some.injEq] at h
          subst h
          rw [step_sample_ok M req curDelay o st tok fp cands hc hm hss hp]
          exact ⟨by omega, rfl, tok, fp, cands, rfl, rfl, rfl⟩

/-- In a run started below the ceiling, the counter never exceeds the
ceiling. -/
theorem stateAt_count_le (M : Model) (req : GenerateRequest)
    (delays : ℕ → ℝ) (os : ℕ → StepOracle) (st0 : GenState)
    (h0 : st0.count ≤ MAX_TOKENS_BEFORE_RESET) :
    ∀ t st, stateAt M req delays os st0 t = some st →
      st.count ≤ MAX_TOKENS_BEFORE_RESET := by
  intro t
  induction t with
  | zero =>
    intro st h
    rw [stateAt] at h
    simp only [Option.some.injEq] at h
    rw [← h]
    exact h0
  | succ n ih =>
    intro st h
    rw [stateAt] at h
    cases hn : stateAt M req delays os st0 n with
    | none => rw [hn] at h; simp at h
    | some stp =>
      rw [hn] at h
      simp only at h
      rcases step_next_cases M req (delays n) (os n) stp st h with
        ⟨-, hcnt, -⟩ | ⟨hlt, hcnt, -⟩
      · omega
      · omega

/-- C4: within one generation run (started with counter 0), the counter
never exceeds the ceiling `MAX_TOKENS_BEFORE_RESET = 4000`; every sampling
pass emits exactly one token record whose count is the previous count plus
one (strict increase by one per sampled token); and when the counter has
reached the ceiling, the pass emits exactly one reset-marker record with
count 0, reseeds the context from the seed alphabet, and invokes no model
inference (no token is sampled) during that pass. -/
theorem C4_count_and_reset (M : Model) (req : GenerateRequest)
    (delays : ℕ → ℝ) (os : ℕ → StepOracle) (st0 : GenState) (t : ℕ)
    (st st1 : GenState)
    (h0 : st0.count = 0)
    (h : stateAt M req delays os st0 t = some st)
    (h1 : stateAt M req delays os st0 (t + 1) = some st1) :
    MAX_TOKENS_BEFORE_RESET = 4000 ∧
    st.count ≤ MAX_TOKENS_BEFORE_RESET ∧
    (st.count < MAX_TOKENS_BEFORE_RESET →
      ∃ tok fp cands,
        recordsAt M req delays os st0 t
          = [⟨M.decode tok, st.count + 1, some cands, some (pyRound 6 fp)⟩] ∧
        st1.count = st.count + 1) ∧
    (st.count = MAX_TOKENS_BEFORE_RESET →
      ∃ s, s ∈ SEEDS ∧
        recordsAt M req delays os st0 t = [⟨resetText s, 0, none, none⟩] ∧
        st1.count = 0 ∧ st1.inputIds = M.tokenize s ∧
        (step M req (delays t) (os t) st).modelInput = none) := by
  have hstep : (step M req (delays t) (os t) st).next = some st1 := by
    rw [stateAt] at h1
    rw [h] at h1
    exact h1
  have hrec : recordsAt M req delays os st0 t
      = (step M req (delays t) (os t) st).emitted := by
    rw [recordsAt, h]
  refine ⟨rfl, stateAt_count_le M req delays os st0 (by omega) t st h, ?_, ?_⟩
  · intro hlt
    rcases step_next_cases M req (delays t) (os t) st st1 hstep with
      ⟨hge, -⟩ | ⟨-, hcnt, tok, fp, cands, -, hem, -⟩
    · omega
    · exact ⟨tok, fp, cands, hrec.trans hem, hcnt⟩
  · intro heq
    rcases step_next_cases M req (delays t) (os t) st st1 hstep with
      ⟨-, hcnt, s, hs, hids, hem, hmi⟩ | ⟨hlt, -⟩
    · exact ⟨s, hs, hrec.trans hem, hcnt, hids, hmi⟩
    · omega

/-! ### Context truncation (C5) -/

theorem truncateCtx_spec (ids : List ℕ) (c : ℤ) (hc : 1 ≤ c) :
    (truncateCtx ids c).length = min ids.length c.toNat ∧
      ∃ pre, ids = pre ++ truncateCtx ids c := by
  rw [truncateCtx]
  have hmax : max 1 c = c := max_eq_right hc
  rw [hmax]
  by_cases h : c.toNat < ids.length
  · rw [if_pos h]
    constructor
    · rw [List.length_drop]
      omega
    · exact ⟨ids.take (ids.length - c.toNat), (List.take_append_drop _ _).symm⟩
  · rw [if_neg h]
    constructor
    · omega
    · exact ⟨[], rfl⟩

theorem step_modelInput_eq (M : Model) (req : GenerateRequest) (curDelay : ℝ)
    (o : StepOracle) (st : GenState) (ctx : List ℕ)
    (h : (step M req curDelay o st).modelInput = some ctx) :
    ctx = truncateCtx st.inputIds req.context := by
  by_cases hc : MAX_TOKENS_BEFORE_RESET ≤ st.count
  · cases hr : o.resetSinkOk with
    | false => rw [step_reset_fail M req curDelay o st hc hr] at h; simp at h
    | true => rw [step_reset_ok M req curDelay o st hc hr] at h; simp at h
  · cases hm : o.modelOk with
    | false =>
      rw [step_model_fail M req curDelay o st hc hm] at h
      simp only [Option.some.injEq] at h
      exact h.symm
    | true =>
      rcases hss : sampleStep M (M.forward (truncateCtx st.inputIds req.context)).1
          req.temp NUCLEUS_P o.sampleIdx with - | ⟨tok, fp, cands⟩
      · rw [step_sample_fail M req curDelay o st hc hm hss] at h
        simp only [Option.some.injEq] at h
        exact h.symm
      · cases hp : o.pointSinkOk with
        | false =>
          rw [step_sample_badSink M req curDelay o st tok fp cands hc hm hss hp] at h
          simp only [Option.some.injEq] at h
          exact h.symm
        | true =>
          rw [step_sample_ok M req curDelay o st tok fp cands hc hm hss hp] at h
          simp only [Option.some.injEq] at h
          exact h.symm

/-- C5: whenever a pass invokes the model, the context it passes is the
truncation of the current context sequence: its length is at most the
context limit of the request (a positive integer per the data model), and it is
exactly the most recent `min length limit` tokens in their original relative
order (a suffix of the context sequence). -/
theorem C5_truncation (M : Model) (req : GenerateRequest) (curDelay : ℝ)
    (o : StepOracle) (st : GenState) (ctx : List ℕ)
    (hc : 1 ≤ req.context)
    (h : (step M req curDelay o st).modelInput = some ctx) :
    ctx.length ≤ req.context.toNat ∧
      ctx.length = min st.inputIds.length req.context.toNat ∧
      ∃ pre, st.inputIds = pre ++ ctx := by
  obtain rfl : ctx = truncateCtx st.inputIds req.context :=
    step_modelInput_eq M req curDelay o st ctx h
  obtain ⟨hlen, hsuf⟩ := truncateCtx_spec st.inputIds req.context hc
  exact ⟨by omega, hlen, hsuf⟩

/-! ### Concrete instances for witnesses and counterexamples -/

/-- A minimal concrete model: a five-token vocabulary with uniform logits. -/
noncomputable def M0 : Model where
  tokenize := fun _ => [0]
  forward := fun _ => ([0, 0, 0, 0, 0], [0, 0, 0])
  decode := fun _ => "t"

/-- A concrete model whose vocabulary has size 1. -/
noncomputable def M1 : Model where
  tokenize := fun _ => [0]
  forward := fun _ => ([0], [0, 0, 0])
  decode := fun _ => "t"

/-- The default request (all pydantic defaults). -/
noncomputable def req0 : GenerateRequest := {}

/-- An all-success iteration oracle drawing index 0 everywhere. -/
def okOracle : StepOracle := ⟨0, 0, true, true, true⟩

/-- An oracle identical to `okOracle` except that the OSC `/latent/point`
send raises. -/
def badSinkOracle : StepOracle := ⟨0, 0, true, true, false⟩

theorem req0_temp : req0.temp = 1 := by norm_num [req0]

theorem req0_context : req0.context = 64 := rfl

theorem argsort_zeros5 : argsortDesc [(0 : ℝ), 0, 0, 0, 0] = [0, 1, 2, 3, 4] := by
  have h : List.range (List.length [(0 : ℝ), 0, 0, 0, 0]) = [0, 1, 2, 3, 4] := rfl
  rw [argsortDesc, h]
  apply List.mergeSort_of_sorted
  norm_num [List.pairwise_cons]

theorem sortDesc_zeros5 :
    sortDesc [(0 : ℝ), 0, 0, 0, 0] = [(0 : ℝ), 0, 0, 0, 0] := by
  rw [sortDesc, argsort_zeros5]
  norm_num

theorem softmax_zeros5 :
    softmax [(0 : ℝ), 0, 0, 0, 0] = [1 / 5, 1 / 5, 1 / 5, 1 / 5, 1 / 5] := by
  norm_num [softmax, Real.exp_zero]

theorem not_removedOrig_zeros5 (j : ℕ) :
    ¬ removedOrig [(0 : ℝ), 0, 0, 0, 0] NUCLEUS_P j := by
  rintro ⟨i, hi, hgd, hi0, hcum⟩
  rw [argsort_zeros5] at hi hgd
  norm_num at hi
  rw [sortDesc_zeros5, softmax_zeros5] at hcum
  have hP : NUCLEUS_P = (0.92 : ℝ) := rfl
  rw [hP] at hcum
  interval_cases i
  · exact hi0 rfl
  · norm_num [cumAt] at hcum
  · norm_num [cumAt] at hcum
  · norm_num [cumAt] at hcum
  · norm_num [cumAt] at hcum

theorem scale_zeros5 :
    scaleLogits [(0 : ℝ), 0, 0, 0, 0] 1 = [(0 : ℝ), 0, 0, 0, 0] := by
  norm_num [scaleLogits]

theorem keptExp_zeros5 :
    keptExp [(0 : ℝ), 0, 0, 0, 0] NUCLEUS_P = [1, 1, 1, 1, 1] := by
  rw [keptExp]
  have h : List.range (List.length [(0 : ℝ), 0, 0, 0, 0]) = [0, 1, 2, 3, 4] := rfl
  rw [h]
  simp [not_removedOrig_zeros5, Real.exp_zero]

theorem finalProbs_zeros5 :
    finalProbs [(0 : ℝ), 0, 0, 0, 0] 1 NUCLEUS_P
      = [1 / 5, 1 / 5, 1 / 5, 1 / 5, 1 / 5] := by
  rw [finalProbs, scale_zeros5, keptExp_zeros5]
  norm_num

theorem argsort_fifths :
    argsortDesc [(1 : ℝ) / 5, 1 / 5, 1 / 5, 1 / 5, 1 / 5] = [0, 1, 2, 3, 4] := by
  have h : List.range (List.length [(1 : ℝ) / 5, 1 / 5, 1 / 5, 1 / 5, 1 / 5])
      = [0, 1, 2, 3, 4] := rfl
  rw [argsortDesc, h]
  apply List.mergeSort_of_sorted
  norm_num [List.pairwise_cons]

/-- The candidate entry reported for each of the five uniform tokens. -/
noncomputable def cand0 : Candidate := ⟨"t", pyRound 4 (1 / 5)⟩

theorem topk_fifths :
    topkCandidates M0 [(1 : ℝ) / 5, 1 / 5, 1 / 5, 1 / 5, 1 / 5] 5 =
      some [cand0, cand0, cand0, cand0, cand0] := by
  rw [topkCandidates, if_pos (by norm_num), argsort_fifths]
  norm_num [M0, cand0]

theorem sampleStep_M0 :
    sampleStep M0 [(0 : ℝ), 0, 0, 0, 0] 1 NUCLEUS_P 0 =
      some (0, 1 / 5, [cand0, cand0, cand0, cand0, cand0]) := by
  rw [sampleStep]
  simp only [finalProbs_zeros5]
  rw [if_pos (by norm_num), topk_fifths]
  norm_num

theorem truncate_single : truncateCtx [0] req0.context = [0] := by
  norm_num [truncateCtx, req0]

theorem sampleStep_M0_req0 :
    sampleStep M0 (M0.forward (truncateCtx [0] req0.context)).1 req0.temp
      NUCLEUS_P okOracle.sampleIdx =
      some (0, 1 / 5, [cand0, cand0, cand0, cand0, cand0]) := by
  have hf : (M0.forward (truncateCtx [0] req0.context)).1
      = [(0 : ℝ), 0, 0, 0, 0] := rfl
  rw [hf, req0_temp]
  exact sampleStep_M0

theorem step_M0_ok (curDelay : ℝ) :
    step M0 req0 curDelay okOracle ⟨[0], 0⟩ =
      { emitted := [⟨"t", 1, some [cand0, cand0, cand0, cand0, cand0],
          some (pyRound 6 (1 / 5))⟩],
        next := some ⟨[0, 0], 1⟩,
        modelInput := some [0],
        slept := some (max 0.01 (min 2.0 curDelay)) } := by
  have h := step_sample_ok M0 req0 curDelay okOracle ⟨[0], 0⟩ 0 (1 / 5)
      [cand0, cand0, cand0, cand0, cand0]
      (by norm_num [MAX_TOKENS_BEFORE_RESET]) rfl sampleStep_M0_req0 rfl
  rw [h]
  norm_num [truncate_single, M0]

theorem step_M0_badSink (curDelay : ℝ) :
    step M0 req0 curDelay badSinkOracle ⟨[0], 0⟩ =
      { emitted := [⟨"t", 1, some [cand0, cand0, cand0, cand0, cand0],
          some (pyRound 6 (1 / 5))⟩],
        next := none,
        modelInput := some [0],
        slept := none } := by
  have h := step_sample_badSink M0 req0 curDelay badSinkOracle ⟨[0], 0⟩ 0 (1 / 5)
      [cand0, cand0, cand0, cand0, cand0]
      (by norm_num [MAX_TOKENS_BEFORE_RESET]) rfl sampleStep_M0_req0 rfl
  rw [h]
  norm_num [truncate_single, M0]

theorem stateAt_M0_0 :
    stateAt M0 req0 (fun _ => 1 / 2) (fun _ => okOracle) ⟨[0], 0⟩ 0
      = some ⟨[0], 0⟩ := rfl

theorem stateAt_M0_1 :
    stateAt M0 req0 (fun _ => 1 / 2) (fun _ => okOracle) ⟨[0], 0⟩ 1
      = some ⟨[0, 0], 1⟩ := by
  simp only [stateAt]
  rw [step_M0_ok]

/-! ### C3: failure of the external sink -/

/-- C3 counterexample: a concrete sampling pass in which the only difference
is whether the OSC `/latent/point` send raises.  With the raising sink the
pass has no successor state — the `except` clause runs `break` and the loop
terminates — whereas the identical pass with a healthy sink continues.  This
refutes the claim that a sink error never terminates the loop. -/
theorem C3_counterexample :
    (step M0 req0 (1 / 2) badSinkOracle ⟨[0], 0⟩).next = none ∧
      (step M0 req0 (1 / 2) okOracle ⟨[0], 0⟩).next = some ⟨[0, 0], 1⟩ := by
  rw [step_M0_badSink, step_M0_ok]
  exact ⟨rfl, rfl⟩

/-- C3 amended: an error raised while forwarding the latent point to the
external sink is caught by the in-loop exception handler — it never
propagates to the transport, and the token record already yielded in that
pass is still delivered — but it terminates the generation loop via
`break`: the pass has no successor state and no sleep, and the loop does
not continue to the next iteration. -/
theorem C3_sink_error_breaks_loop (M : Model) (req : GenerateRequest)
    (curDelay : ℝ) (o : StepOracle) (st : GenState) (tok : ℕ) (fp : ℝ)
    (cands : List Candidate)
    (hc : st.count < MAX_TOKENS_BEFORE_RESET)
    (hm : o.modelOk = true)
    (hss : sampleStep M (M.forward (truncateCtx st.inputIds req.context)).1
        req.temp NUCLEUS_P o.sampleIdx = some (tok, fp, cands))
    (hp : o.pointSinkOk = false) :
    step M req curDelay o st =
      { emitted := [⟨M.decode tok, st.count + 1, some cands,
          some (pyRound 6 fp)⟩],
        next := none,
        modelInput := some (truncateCtx st.inputIds req.context),
        slept := none } :=
  step_sample_badSink M req curDelay o st tok fp cands (by omega) hm hss hp

/-- Witness for the amended C3 at the concrete minimal model. -/
theorem C3_sink_error_breaks_loop_witness :
    step M0 req0 (1 / 2) badSinkOracle ⟨[0], 0⟩ =
      { emitted := [⟨"t", 1, some [cand0, cand0, cand0, cand0, cand0],
          some (pyRound 6 (1 / 5))⟩],
        next := none,
        modelInput := some (truncateCtx [0] req0.context),
        slept := none } := by
  have h := C3_sink_error_breaks_loop M0 req0 (1 / 2) badSinkOracle ⟨[0], 0⟩
      0 (1 / 5) [cand0, cand0, cand0, cand0, cand0]
      (by norm_num [MAX_TOKENS_BEFORE_RESET]) rfl sampleStep_M0_req0 rfl
  rw [h]
  norm_num [M0]

/-! ### C4 and C5 witnesses -/

/-- Witness for C4 on a concrete one-pass run of the minimal model. -/
theorem C4_count_and_reset_witness :
    MAX_TOKENS_BEFORE_RESET = 4000 ∧
    (⟨[0], 0⟩ : GenState).count ≤ MAX_TOKENS_BEFORE_RESET ∧
    ((⟨[0], 0⟩ : GenState).count < MAX_TOKENS_BEFORE_RESET →
      ∃ tok fp cands,
        recordsAt M0 req0 (fun _ => 1 / 2) (fun _ => okOracle) ⟨[0], 0⟩ 0
          = [⟨M0.decode tok, (⟨[0], 0⟩ : GenState).count + 1, some cands,
              some (pyRound 6 fp)⟩] ∧
        (⟨[0, 0], 1⟩ : GenState).count = (⟨[0], 0⟩ : GenState).count + 1) ∧
    ((⟨[0], 0⟩ : GenState).count = MAX_TOKENS_BEFORE_RESET →
      ∃ s, s ∈ SEEDS ∧
        recordsAt M0 req0 (fun _ => 1 / 2) (fun _ => okOracle) ⟨[0], 0⟩ 0
          = [⟨resetText s, 0, none, none⟩] ∧
        (⟨[0, 0], 1⟩ : GenState).count = 0 ∧
        (⟨[0, 0], 1⟩ : GenState).inputIds = M0.tokenize s ∧
        (step M0 req0 (1 / 2) okOracle ⟨[0], 0⟩).modelInput = none) :=
  C4_count_and_reset M0 req0 (fun _ => 1 / 2) (fun _ => okOracle) ⟨[0], 0⟩ 0
    ⟨[0], 0⟩ ⟨[0, 0], 1⟩ rfl stateAt_M0_0 stateAt_M0_1

/-- Witness for C5 on a concrete pass of the minimal model. -/
theorem C5_truncation_witness :
    ([0] : List ℕ).length ≤ req0.context.toNat ∧
      ([0] : List ℕ).length
        = min ((⟨[0], 0⟩ : GenState).inputIds).length req0.context.toNat ∧
      ∃ pre, (⟨[0], 0⟩ : GenState).inputIds = pre ++ [0] :=
  C5_truncation M0 req0 (1 / 2) okOracle ⟨[0], 0⟩ [0]
    (by rw [req0_context]; norm_num)
    (by rw [step_M0_ok])

/-! ### C6: shape of the emitted records -/

theorem pyRound_mono (n : ℕ) {x y : ℝ} (h : x ≤ y) :
    pyRound n x ≤ pyRound n y := by
  rw [pyRound, pyRound]
  have hpow : (0 : ℝ) < 10 ^ n := by positivity
  have hmul : x * 10 ^ n ≤ y * 10 ^ n :=
    mul_le_mul_of_nonneg_right h (le_of_lt hpow)
  have hfl : ((⌊x * 10 ^ n + 1 / 2⌋ : ℤ) : ℝ) ≤ ((⌊y * 10 ^ n + 1 / 2⌋ : ℤ) : ℝ) := by
    exact_mod_cast Int.floor_mono (by push_cast; linarith)
  exact (div_le_div_right hpow).mpr hfl

theorem argsortDesc_pairwise (l : List ℝ) :
    List.Pairwise (fun i j => l.getD j 0 ≤ l.getD i 0) (argsortDesc l) := by
  have htrans : ∀ a b c : ℕ,
      decide (l.getD b 0 ≤ l.getD a 0) = true →
      decide (l.getD c 0 ≤ l.getD b 0) = true →
      decide (l.getD c 0 ≤ l.getD a 0) = true := by
    intro a b c hab hbc
    exact decide_eq_true (le_trans (of_decide_eq_true hbc) (of_decide_eq_true hab))
  have htotal : ∀ a b : ℕ,
      (decide (l.getD b 0 ≤ l.getD a 0) || decide (l.getD a 0 ≤ l.getD b 0))
        = true := by
    intro a b
    simp only [Bool.or_eq_true, decide_eq_true_eq]
    exact le_total _ _
  have h := @List.sorted_mergeSort ℕ
      (fun i j => decide (l.getD j 0 ≤ l.getD i 0)) htrans htotal
      (List.range l.length)
  rw [argsortDesc]
  exact h.imp (fun hab => of_decide_eq_true hab)

theorem topkCandidates_spec (M : Model) (probs : List ℝ)
    (cs : List Candidate) (h : topkCandidates M probs 5 = some cs) :
    cs.length = 5 ∧
      List.Pairwise (fun a b : Candidate => b.prob ≤ a.prob) cs := by
  rw [topkCandidates] at h
  by_cases hk : 5 ≤ probs.length
  · rw [if_pos hk] at h
    simp only [Option.some.injEq] at h
    subst h
    constructor
    · rw [List.length_map, List.length_take, argsortDesc_length]
      omega
    · have hp := List.Pairwise.sublist (List.take_sublist 5 _)
        (argsortDesc_pairwise probs)
      rw [List.pairwise_map]
      exact hp.imp (fun hij => pyRound_mono 4 hij)
  · rw [if_neg hk] at h
    simp at h

theorem sampleStep_topk (M : Model) (logits : List ℝ) (temp topP : ℝ)
    (si tok : ℕ) (fp : ℝ) (cands : List Candidate)
    (h : sampleStep M logits temp topP si = some (tok, fp, cands)) :
    topkCandidates M (finalProbs logits temp topP) 5 = some cands := by
  rw [sampleStep] at h
  by_cases hp : 0 < (finalProbs logits temp topP).getD si 0
  · rw [if_pos hp] at h
    rcases htk : topkCandidates M (finalProbs logits temp topP) 5 with - | cs
    · rw [htk] at h
      simp at h
    · rw [htk] at h
      simp only [Option.some.injEq, Prod.mk.injEq] at h
      rw [h.2.2]
  · rw [if_neg hp] at h
    simp at h

theorem step_emitted_cases (M : Model) (req : GenerateRequest)
    (curDelay : ℝ) (o : StepOracle) (st : GenState) (r : Record)
    (h : r ∈ (step M req curDelay o st).emitted) :
    (r.candidates = none ∧ r.final_prob = none) ∨
    (∃ cs p, r.candidates = some cs ∧ cs.length = 5 ∧
        List.Pairwise (fun a b : Candidate => b.prob ≤ a.prob) cs ∧
        r.final_prob = some p) := by
  by_cases hc : MAX_TOKENS_BEFORE_RESET ≤ st.count
  · cases hr : o.resetSinkOk with
    | false => rw [step_reset_fail M req curDelay o st hc hr] at h; simp at h
    | true =>
      rw [step_reset_ok M req curDelay o st hc hr] at h
      simp only [List.mem_singleton] at h
      subst h
      left
      exact ⟨rfl, rfl⟩
  · cases hm : o.modelOk with
    | false => rw [step_model_fail M req curDelay o st hc hm] at h; simp at h
    | true =>
      rcases hss : sampleStep M
          (M.forward (truncateCtx st.inputIds req.context)).1
          req.temp NUCLEUS_P o.sampleIdx with - | ⟨tok, fp, cands⟩
      · rw [step_sample_fail M req curDelay o st hc hm hss] at h
        simp at h
      · have hcs := topkCandidates_spec M _ cands
          (sampleStep_topk M _ _ _ _ _ _ _ hss)
        have hmem : r = ⟨M.decode tok, st.count + 1, some cands,
            some (pyRound 6 fp)⟩ := by
          cases hp : o.pointSinkOk with
          | false =>
            rw [step_sample_badSink M req curDelay o st tok fp cands
              hc hm hss hp] at h
            simpa using h
          | true =>
            rw [step_sample_ok M req curDelay o st tok fp cands
              hc hm hss hp] at h
            simpa using h
        subst hmem
        right
        exact ⟨cands, pyRound 6 fp, rfl, hcs.1, hcs.2, rfl⟩

/-- C6 amended: every record of the stream carries the `text` and `count`
keys (they are mandatory fields of the record type, mirroring the JSON
objects built by the source); the initial seed record carries ONLY those —
no `candidates`, no `final_prob`, count 0 — and every record yielded inside
the loop either is a reset-marker record with no `candidates`/`final_prob`
keys, or is a per-token record that additionally carries a `candidates`
list of exactly 5 entries sorted by descending probability together with a
`final_prob` value. -/
theorem C6_record_shapes (M : Model) (req : GenerateRequest)
    (delays : ℕ → ℝ) (os : ℕ → StepOracle) (st0 : GenState) :
    (∀ startSinkOk seedIdx r st1,
        initGen M req startSinkOk seedIdx = some (r, st1) →
          r.text ∈ SEEDS ∧ r.count = 0 ∧ r.candidates = none ∧
            r.final_prob = none) ∧
    (∀ t r, r ∈ recordsAt M req delays os st0 t →
        (r.candidates = none ∧ r.final_prob = none) ∨
        (∃ cs p, r.candidates = some cs ∧ cs.length = 5 ∧
            List.Pairwise (fun a b : Candidate => b.prob ≤ a.prob) cs ∧
            r.final_prob = some p)) := by
  constructor
  · intro startSinkOk seedIdx r st1 h
    rw [initGen] at h
    by_cases hcond : req.reset = true ∧ startSinkOk = false
    · rw [if_pos hcond] at h
      simp at h
    · rw [if_neg hcond] at h
      simp only [Option.some.injEq, Prod.mk.injEq] at h
      obtain ⟨hr, -⟩ := h
      rw [← hr]
      exact ⟨seeds_getD_mem _, rfl, rfl, rfl⟩
  · intro t r h
    rw [recordsAt] at h
    cases hst : stateAt M req delays os st0 t with
    | none => rw [hst] at h; simp at h
    | some st =>
      rw [hst] at h
      exact step_emitted_cases M req (delays t) (os t) st r h

theorem initGen_req0_eval :
    initGen M0 req0 true 0 = some (⟨"A", 0, none, none⟩, ⟨[0], 0⟩) := by
  norm_num [initGen, req0, SEEDS, M0]

/-- C6 counterexample: the initial seed record of a concrete stream of the
extended variant carries no `candidates` key and no `final_prob` key,
refuting the claim that every emitted JSON object carries a candidates list
of exactly 5 entries and a final_prob. -/
theorem C6_counterexample :
    initGen M0 req0 true 0 = some (⟨"A", 0, none, none⟩, ⟨[0], 0⟩) ∧
      (⟨"A", 0, none, none⟩ : Record).candidates = none ∧
      (⟨"A", 0, none, none⟩ : Record).final_prob = none :=
  ⟨initGen_req0_eval, rfl, rfl⟩

/-- Witness for the amended C6 at a concrete stream start. -/
theorem C6_record_shapes_witness :
    (⟨"A", 0, none, none⟩ : Record).text ∈ SEEDS ∧
      (⟨"A", 0, none, none⟩ : Record).count = 0 ∧
      (⟨"A", 0, none, none⟩ : Record).candidates = none ∧
      (⟨"A", 0, none, none⟩ : Record).final_prob = none :=
  (C6_record_shapes M0 req0 (fun _ => 1 / 2) (fun _ => okOracle)
    ⟨[0], 0⟩).1 true 0 _ _ initGen_req0_eval

/-! ### C7: no request validation -/

/-- A request with an invalid temperature of 0. -/
noncomputable def reqBadTemp : GenerateRequest :=
  { temp := 0, context := 64, delay := 0.05, reset := true }

/-- C7 counterexample: the request with temperature 0 is not rejected — the
endpoint accepts it, streaming starts, and the initial seed record (a step
record) is emitted before the temperature is ever used.  This refutes the
claim that such a request is rejected before any streaming starts with no
step record produced. -/
theorem C7_counterexample :
    initGen M0 reqBadTemp true 0 = some (⟨"A", 0, none, none⟩, ⟨[0], 0⟩) := by
  norm_num [initGen, reqBadTemp, SEEDS, M0]

/-- C7 amended: the server performs no value validation on the generation
request — pydantic checks field types only — so a request with
temperature ≤ 0 or a non-positive context limit is accepted, streaming
starts, and the initial seed record (count 0) is emitted regardless of the
parameter values, provided the optional pre-loop sink notification does not
itself raise.  An invalid temperature can only surface later as an in-loop
error that silently ends the stream. -/
theorem C7_no_validation (M : Model) (req : GenerateRequest)
    (startSinkOk : Bool) (seedIdx : ℕ)
    (h : req.reset = false ∨ startSinkOk = true) :
    ∃ r st1, initGen M req startSinkOk seedIdx = some (r, st1) ∧
      r.count = 0 ∧ r.text ∈ SEEDS ∧ r.candidates = none := by
  have hcond : ¬ (req.reset = true ∧ startSinkOk = false) := by
    rcases h with h | h <;> simp [h]
  refine ⟨⟨SEEDS.getD (seedIdx % SEEDS.length) "A", 0, none, none⟩,
    ⟨M.tokenize (SEEDS.getD (seedIdx % SEEDS.length) "A"), 0⟩, ?_, rfl,
    seeds_getD_mem _, rfl⟩
  rw [initGen, if_neg hcond]

/-- Witness for the amended C7 at the temperature-0 request. -/
theorem C7_no_validation_witness :
    ∃ r st1, initGen M0 reqBadTemp true 0 = some (r, st1) ∧
      r.count = 0 ∧ r.text ∈ SEEDS ∧ r.candidates = none :=
  C7_no_validation M0 reqBadTemp true 0 (Or.inr rfl)

/-! ### C8: a vocabulary smaller than the top-k size -/

theorem finalProbs_length (logits : List ℝ) (temp topP : ℝ) :
    (finalProbs logits temp topP).length = logits.length := by
  simp [finalProbs, keptExp, scaleLogits]

theorem sampleStep_none_of_small (M : Model) (logits : List ℝ)
    (temp topP : ℝ) (si : ℕ) (h : logits.length < 5) :
    sampleStep M logits temp topP si = none := by
  have ht : topkCandidates M (finalProbs logits temp topP) 5 = none := by
    rw [topkCandidates, if_neg]
    rw [finalProbs_length]
    omega
  rw [sampleStep, ht]
  by_cases hp : 0 < (finalProbs logits temp topP).getD si 0
  · rw [if_pos hp]
  · rw [if_neg hp]

/-- C8 counterexample: with a vocabulary of size 1, the concrete sampling
pass emits nothing and the loop breaks — `torch.topk(probs, k=5)` raises
because `k` exceeds the vocabulary size — refuting the claim that the
sampling step succeeds and returns the single token. -/
theorem C8_counterexample :
    step M1 req0 (1 / 2) okOracle ⟨[0], 0⟩ =
      { emitted := [], next := none, modelInput := some [0],
        slept := none } := by
  have h := step_sample_fail M1 req0 (1 / 2) okOracle ⟨[0], 0⟩
      (by norm_num [MAX_TOKENS_BEFORE_RESET]) rfl
      (sampleStep_none_of_small M1 _ _ _ _ (by norm_num [M1]))
  rw [h]
  norm_num [truncateCtx, req0]

/-- C8 amended: for any vocabulary smaller than 5 — in particular a
vocabulary of size 1 — the candidate-extraction step (`torch.topk` with
k = 5) makes the iteration fail: the pass emits no record (the sampled token
is never returned) and the loop breaks. -/
theorem C8_small_vocab_fails (M : Model) (req : GenerateRequest)
    (curDelay : ℝ) (o : StepOracle) (st : GenState)
    (hc : st.count < MAX_TOKENS_BEFORE_RESET)
    (hvocab : (M.forward (truncateCtx st.inputIds req.context)).1.length < 5) :
    (step M req curDelay o st).emitted = [] ∧
      (step M req curDelay o st).next = none := by
  have hnotc : ¬ MAX_TOKENS_BEFORE_RESET ≤ st.count := by omega
  cases hm : o.modelOk with
  | false =>
    rw [step_model_fail M req curDelay o st hnotc hm]
    exact ⟨rfl, rfl⟩
  | true =>
    rw [step_sample_fail M req curDelay o st hnotc hm
      (sampleStep_none_of_small M _ _ _ _ hvocab)]
    exact ⟨rfl, rfl⟩

/-- Witness for the amended C8 at the size-1 vocabulary model. -/
theorem C8_small_vocab_fails_witness :
    (step M1 req0 (1 / 2) okOracle ⟨[0], 0⟩).emitted = [] ∧
      (step M1 req0 (1 / 2) okOracle ⟨[0], 0⟩).next = none :=
  C8_small_vocab_fails M1 req0 (1 / 2) okOracle ⟨[0], 0⟩
    (by norm_num [MAX_TOKENS_BEFORE_RESET]) (by norm_num [M1])

/-! ### C10: the delay field of the request is dead -/

/-- C10: the `delay` field of the generation request body has no effect on
the behaviour of the program: two runs that differ only in the delay field of the request —
same model, same randomness and failure oracles, same shared pacing state —
have identical pre-loop behaviour, identical states, identical emitted
records and identical sleeps at every iteration, because the per-iteration
sleep reads only the process-wide delay state; that state starts at 0.5,
not at the 0.05 request default. -/
theorem C10_delay_field_ignored (M : Model) (temp : ℝ) (context : ℤ)
    (reset : Bool) (d1 d2 : ℝ) (delays : ℕ → ℝ) (os : ℕ → StepOracle)
    (startSinkOk : Bool) (seedIdx : ℕ) (st0 : GenState) :
    initGen M ⟨temp, context, d1, reset⟩ startSinkOk seedIdx
        = initGen M ⟨temp, context, d2, reset⟩ startSinkOk seedIdx ∧
      (∀ t, stateAt M ⟨temp, context, d1, reset⟩ delays os st0 t
          = stateAt M ⟨temp, context, d2, reset⟩ delays os st0 t) ∧
      (∀ t, recordsAt M ⟨temp, context, d1, reset⟩ delays os st0 t
          = recordsAt M ⟨temp, context, d2, reset⟩ delays os st0 t) ∧
      (∀ t, sleptAt M ⟨temp, context, d1, reset⟩ delays os st0 t
          = sleptAt M ⟨temp, context, d2, reset⟩ delays os st0 t) ∧
      initialCurrentDelay = 0.5 ∧
      ({} : GenerateRequest).delay = 0.05 := by
  have hstep : step M ⟨temp, context, d1, reset⟩
      = step M ⟨temp, context, d2, reset⟩ := rfl
  have hstate : ∀ t, stateAt M ⟨temp, context, d1, reset⟩ delays os st0 t
      = stateAt M ⟨temp, context, d2, reset⟩ delays os st0 t := by
    intro t
    induction t with
    | zero => rfl
    | succ n ih => rw [stateAt, stateAt, ih, hstep]
  refine ⟨rfl, hstate, ?_, ?_, rfl, rfl⟩
  · intro t
    rw [recordsAt, recordsAt, hstate t, hstep]
  · intro t
    rw [sleptAt, sleptAt, hstate t, hstep]

end App
